import Mathlib

set_option maxHeartbeats 1000000

/-!
Verification of the zeth Optimism derivation pipeline against its
natural-language specification.

The development shallowly embeds the code of
`lib/src/optimism/mod.rs` (the `MemDb` witness database and the
`DeriveMachine`) and `primitives/src/transactions/mod.rs` (the
transaction RLP encoder).  Components of the repository that are only
called from this code (keccak, the Merkle-Patricia trie, ABI
encoding/decoding, the channel bank and batch queue, the deposit
extractor and the system-config tracker) are modelled from the
specification at their contract level, as explicit function parameters
gathered in the `Optimism.Prims` and `Optimism.Stage` records.
-/

/-- Byte strings are lists of naturals (each byte being `< 256` where it
matters). -/
abbrev Bytes := List Nat

/-- Association-list lookup keyed by block number (models `HashMap::get`,
first matching entry wins). -/
def alookup {α : Type} (k : Nat) : List (Nat × α) → Option α
  | [] => none
  | (k2, v) :: rest => if k2 = k then some v else alookup k rest

/-- Association-list removal (models `HashMap::remove`): returns the removed
value together with the remaining map, or `none` when the key is absent. -/
def alistRemove {α : Type} (k : Nat) : List (Nat × α) → Option (α × List (Nat × α))
  | [] => none
  | (k2, v) :: rest =>
    if k2 = k then some (v, rest)
    else
      match alistRemove k rest with
      | none => none
      | some (v2, rest2) => some (v2, (k2, v) :: rest2)

theorem alistRemove_lookup {α : Type} {k : Nat} {l : List (Nat × α)} {v : α}
    {rest : List (Nat × α)} (h : alistRemove k l = some (v, rest)) :
    alookup k l = some v := by
  induction l generalizing v rest with
  | nil => simp [alistRemove] at h
  | cons hd tl ih =>
    obtain ⟨k2, v2⟩ := hd
    by_cases hk : k2 = k
    · simp [alistRemove, hk] at h
      simp [alookup, hk, h.1]
    · simp only [alistRemove, hk, if_false] at h
      cases hrec : alistRemove k tl with
      | none => rw [hrec] at h; simp at h
      | some p =>
        obtain ⟨v3, rest3⟩ := p
        rw [hrec] at h
        simp at h
        simp [alookup, hk]
        rw [← h.1]
        exact ih hrec

theorem alistRemove_lookup_ne {α : Type} {k : Nat} {l : List (Nat × α)} {v : α}
    {rest : List (Nat × α)} (h : alistRemove k l = some (v, rest)) :
    ∀ n, n ≠ k → alookup n rest = alookup n l := by
  induction l generalizing v rest with
  | nil => simp [alistRemove] at h
  | cons hd tl ih =>
    obtain ⟨k2, v2⟩ := hd
    by_cases hk : k2 = k
    · simp [alistRemove, hk] at h
      intro n hn
      have : k2 ≠ n := by rw [hk]; exact fun e => hn e.symm
      simp [alookup, this, ← h.2]
    · simp only [alistRemove, hk, if_false] at h
      cases hrec : alistRemove k tl with
      | none => rw [hrec] at h; simp at h
      | some p =>
        obtain ⟨v3, rest3⟩ := p
        rw [hrec] at h
        simp at h
        intro n hn
        rw [← h.2]
        by_cases hk2 : k2 = n
        · simp [alookup, hk2]
        · simp [alookup, hk2]
          exact ih hrec n hn

theorem alistRemove_nodup_lookup {α : Type} {k : Nat} {l : List (Nat × α)} {v : α}
    {rest : List (Nat × α)} (h : alistRemove k l = some (v, rest))
    (hnd : (l.map Prod.fst).Nodup) : alookup k rest = none := by
  induction l generalizing v rest with
  | nil => simp [alistRemove] at h
  | cons hd tl ih =>
    obtain ⟨k2, v2⟩ := hd
    simp only [List.map_cons, List.nodup_cons] at hnd
    by_cases hk : k2 = k
    · simp [alistRemove, hk] at h
      rw [← h.2]
      subst hk
      clear h ih
      induction tl with
      | nil => simp [alookup]
      | cons hd2 tl2 ih2 =>
        obtain ⟨k3, v3⟩ := hd2
        simp only [List.map_cons, List.mem_cons, List.nodup_cons] at hnd
        have hne : k3 ≠ k2 := fun e => hnd.1 (Or.inl e.symm)
        simp [alookup, hne]
        exact ih2 ⟨fun hmem => hnd.1 (Or.inr hmem), hnd.2.2⟩
    · simp only [alistRemove, hk, if_false] at h
      cases hrec : alistRemove k tl with
      | none => rw [hrec] at h; simp at h
      | some p =>
        obtain ⟨v3, rest3⟩ := p
        rw [hrec] at h
        simp at h
        rw [← h.2]
        simp [alookup, hk]
        exact ih hrec hnd.2

/-! ## RLP primitives

Shallow embedding of the parts of `alloy_rlp` that
`primitives/src/transactions/mod.rs` relies on: header encoding/decoding
for RLP lists and the length computations. -/

/-- Minimal big-endian byte representation of a natural number (empty for
zero), as used by RLP to encode lengths of 56 and above. -/
def beBytes (n : Nat) : List Nat :=
  if h : n = 0 then [] else beBytes (n / 256) ++ [n % 256]
decreasing_by exact Nat.div_lt_self (Nat.pos_of_ne_zero h) (by norm_num)

/-- Big-endian byte decoding, the inverse of `beBytes`. -/
def beDecode (l : List Nat) : Nat := l.foldl (fun a b => a * 256 + b) 0

theorem beDecode_append (l : List Nat) (x : Nat) :
    beDecode (l ++ [x]) = beDecode l * 256 + x := by
  simp [beDecode, List.foldl_append]

theorem beDecode_beBytes (n : Nat) : beDecode (beBytes n) = n := by
  induction n using Nat.strong_induction_on with
  | _ n ih =>
    by_cases h : n = 0
    · subst h; simp [beBytes, beDecode]
    · rw [beBytes]
      simp only [h, dite_false]
      rw [beDecode_append, ih (n / 256) (Nat.div_lt_self (Nat.pos_of_ne_zero h) (by norm_num))]
      have := Nat.div_add_mod n 256
      omega

theorem beBytes_ne_nil {n : Nat} (h : n ≠ 0) : beBytes n ≠ [] := by
  rw [beBytes]
  simp [h]

/-- `alloy_rlp::length_of_length`: the byte length of the RLP header for a
payload of the given length. -/
def lengthOfLength (payload : Nat) : Nat :=
  if payload < 56 then 1 else 1 + (beBytes payload).length

/-- The RLP header bytes for a list whose payload has the given length. -/
def rlpListHeader (payload : Nat) : List Nat :=
  if payload < 56 then [0xc0 + payload]
  else (0xf7 + (beBytes payload).length) :: beBytes payload

/-- The RLP encoding of a list with the given payload bytes. -/
def rlpList (payload : List Nat) : List Nat := rlpListHeader payload.length ++ payload

theorem rlpListHeader_length (n : Nat) :
    (rlpListHeader n).length = lengthOfLength n := by
  unfold rlpListHeader lengthOfLength
  by_cases h : n < 56 <;> simp [h, Nat.add_comm]

/-- `alloy_rlp::Header::decode`: reads the header of an RLP item, returning
the header byte-length, the payload length and whether the item is a list. -/
def decodeHeader (buf : List Nat) : Option (Nat × Nat × Bool) :=
  match buf with
  | [] => none
  | b :: rest =>
    if b < 0x80 then some (0, 1, false)
    else if b < 0xb8 then some (1, b - 0x80, false)
    else if b < 0xc0 then
      let lol := b - 0xb7
      if lol ≤ rest.length then some (1 + lol, beDecode (rest.take lol), false) else none
    else if b < 0xf8 then some (1, b - 0xc0, true)
    else
      let lol := b - 0xf7
      if lol ≤ rest.length then some (1 + lol, beDecode (rest.take lol), true) else none

theorem decodeHeader_rlpList (payload tail : List Nat) :
    decodeHeader (rlpList payload ++ tail) =
      some ((rlpListHeader payload.length).length, payload.length, true) := by
  unfold rlpList rlpListHeader
  by_cases h : payload.length < 56
  · simp only [h, if_true, List.cons_append, List.singleton_append]
    unfold decodeHeader
    have h1 : ¬ (0xc0 + payload.length < 0x80) := by omega
    have h2 : ¬ (0xc0 + payload.length < 0xb8) := by omega
    have h3 : ¬ (0xc0 + payload.length < 0xc0) := by omega
    have h4 : 0xc0 + payload.length < 0xf8 := by omega
    simp [h1, h2, h3, h4]
  · simp only [h, if_false, List.cons_append, List.append_assoc]
    unfold decodeHeader
    have hne : payload.length ≠ 0 := by omega
    have hpos : 1 ≤ (beBytes payload.length).length :=
      List.length_pos.mpr (beBytes_ne_nil hne)
    have h1 : ¬ (0xf7 + (beBytes payload.length).length < 0x80) := by omega
    have h2 : ¬ (0xf7 + (beBytes payload.length).length < 0xb8) := by omega
    have h3 : ¬ (0xf7 + (beBytes payload.length).length < 0xc0) := by omega
    have h4 : ¬ (0xf7 + (beBytes payload.length).length < 0xf8) := by omega
    simp only [h1, if_false, h2, h3, h4]
    have hlol : 0xf7 + (beBytes payload.length).length - 0xf7
        = (beBytes payload.length).length := by omega
    rw [hlol]
    have hle : (beBytes payload.length).length
        ≤ (beBytes payload.length ++ (payload ++ tail)).length := by
      simp
    simp only [hle, if_true]
    have htake : (beBytes payload.length ++ (payload ++ tail)).take
        (beBytes payload.length).length = beBytes payload.length := by
      rw [List.take_append_of_le_length (Nat.le_refl _), List.take_length]
    rw [htake, beDecode_beBytes]
    simp [Nat.add_comm]

theorem rlpList_drop_header (payload : List Nat) :
    (rlpList payload).drop (rlpListHeader payload.length).length = payload := by
  unfold rlpList
  rw [List.drop_left]

theorem rlpList_length (payload : List Nat) :
    (rlpList payload).length = lengthOfLength payload.length + payload.length := by
  unfold rlpList
  rw [List.length_append, rlpListHeader_length]

/-! ## The transaction encoder (`primitives/src/transactions/mod.rs`)

The essence and signature `Encodable` implementations live outside the
given sources; per the `alloy_rlp` contract (checked by the repository's
own `rlp` test) each encodes as a single RLP list whose `payload_length`
is the byte length of its payload.  A `Transaction` is therefore
embedded by its EIP-2718 type byte together with the payload bytes of
the essence list and of the signature list. -/

structure Transaction where
  tx_type : Nat
  essence_payload : List Nat
  signature_payload : List Nat
deriving DecidableEq, Repr

/-- `rlp_join_lists` from `primitives/src/transactions/mod.rs`: decodes the
headers of two RLP-encoded lists and joins their payloads under a single
list header.  Returns `none` where the Rust code panics (input not a
list). -/
def rlp_join_lists (a b : List Nat) : Option (List Nat) :=
  match decodeHeader a, decodeHeader b with
  | some (ha, _, true), some (hb, _, true) =>
    some (rlpListHeader ((a.length - ha) + (b.length - hb)) ++ (a.drop ha ++ b.drop hb))
  | _, _ => none

/-- `impl Encodable for Transaction::encode`: prepend the EIP-2718 type byte
unless the type is zero (legacy), then join the essence list and the
signature list into one RLP list. -/
def Transaction.encode (t : Transaction) : Option (List Nat) :=
  match rlp_join_lists (rlpList t.essence_payload) (rlpList t.signature_payload) with
  | none => none
  | some joined => some ((if t.tx_type = 0 then [] else [t.tx_type]) ++ joined)

/-- `impl Encodable for Transaction::length`. -/
def Transaction.length (t : Transaction) : Nat :=
  let payload_length := t.essence_payload.length + t.signature_payload.length
  payload_length + lengthOfLength payload_length + (if t.tx_type = 0 then 0 else 1)

/-- `Transaction::hash`: keccak of the RLP encoding (keccak given as a
parameter, its implementation lives outside the given sources). -/
def Transaction.hash (keccakFn : List Nat → List Nat) (t : Transaction) :
    Option (List Nat) :=
  (Transaction.encode t).map keccakFn

theorem rlp_join_lists_rlpList (pa pb : List Nat) :
    rlp_join_lists (rlpList pa) (rlpList pb) = some (rlpList (pa ++ pb)) := by
  unfold rlp_join_lists
  have ha := decodeHeader_rlpList pa []
  have hb := decodeHeader_rlpList pb []
  rw [List.append_nil] at ha hb
  rw [ha, hb]
  dsimp only
  have hlena : (rlpList pa).length - (rlpListHeader pa.length).length = pa.length := by
    rw [rlpList_length, rlpListHeader_length]; omega
  have hlenb : (rlpList pb).length - (rlpListHeader pb.length).length = pb.length := by
    rw [rlpList_length, rlpListHeader_length]; omega
  rw [hlena, hlenb, rlpList_drop_header, rlpList_drop_header]
  unfold rlpList
  rw [List.length_append]

/-- C9: For every `Transaction`, `encode` produces the EIP-2718 type byte
(omitted exactly when `tx_type` is zero, i.e. legacy) followed by a single
RLP list whose payload is the essence list's payload concatenated with the
signature list's payload; the byte length of this encoding equals the value
returned by `length`; and `hash` is keccak of this encoding. -/
theorem transaction_encode_spec (t : Transaction) (keccakFn : List Nat → List Nat) :
    Transaction.encode t =
      some ((if t.tx_type = 0 then [] else [t.tx_type]) ++
        rlpList (t.essence_payload ++ t.signature_payload)) ∧
    ((if t.tx_type = 0 then ([] : List Nat) else [t.tx_type]) ++
        rlpList (t.essence_payload ++ t.signature_payload)).length = Transaction.length t ∧
    Transaction.hash keccakFn t =
      some (keccakFn ((if t.tx_type = 0 then [] else [t.tx_type]) ++
        rlpList (t.essence_payload ++ t.signature_payload))) := by
  have henc : Transaction.encode t =
      some ((if t.tx_type = 0 then [] else [t.tx_type]) ++
        rlpList (t.essence_payload ++ t.signature_payload)) := by
    unfold Transaction.encode
    rw [rlp_join_lists_rlpList]
  refine ⟨henc, ?_, ?_⟩
  · rw [List.length_append, rlpList_length, List.length_append]
    unfold Transaction.length
    by_cases h : t.tx_type = 0 <;> simp [h] <;> omega
  · unfold Transaction.hash
    rw [henc]
    rfl

/-! ## The Optimism derivation pipeline (`lib/src/optimism/mod.rs`) -/

namespace Optimism

/-- A block header, with exactly the fields that `lib/src/optimism/mod.rs`
reads.  The header hash (keccak of the header RLP) is computed by code
outside the given sources and is supplied as the `headerHash` primitive. -/
structure Header where
  number : Nat
  parent_hash : Bytes
  timestamp : Nat
  base_fee_per_gas : Nat
  transactions_root : Bytes
  receipts_root : Bytes
  logs_bloom : Bytes
deriving DecidableEq, Repr

/-- An L2 (Optimism) transaction as stored in a witness block: its canonical
RLP encoding (`to_rlp`) and its essence calldata (`essence.data()`).  The
transaction types themselves live outside the given sources. -/
structure OpTx where
  rlp : Bytes
  data : Bytes
deriving DecidableEq, Repr

/-- An L1 (Ethereum) transaction as stored in a witness block, by its
canonical RLP encoding. -/
structure EthTx where
  rlp : Bytes
deriving DecidableEq, Repr

/-- A receipt as stored in a witness block, by its RLP encoding. -/
structure Receipt where
  rlp : Bytes
deriving DecidableEq, Repr

/-- `epoch::BlockInput<OptimismTxEssence>`: a full L2 block. -/
structure BlockInputOp where
  block_header : Header
  transactions : List OpTx
deriving DecidableEq, Repr

/-- `epoch::BlockInput<EthereumTxEssence>`: a full L1 block with optional
receipts. -/
structure BlockInputEth where
  block_header : Header
  transactions : List EthTx
  receipts : Option (List Receipt)
deriving DecidableEq, Repr

/-- The decoded arguments of an `OpSystemInfo::setL1BlockValues` call. -/
structure SetL1BlockValuesCall where
  number : Nat
  timestamp : Nat
  basefee : Nat
  hash : Bytes
  sequence_number : Nat
  batcher_hash : Bytes
  l1_fee_overhead : Nat
  l1_fee_scalar : Nat
deriving DecidableEq, Repr

/-- Modelled from the spec: the mutable part of `config::SystemConfig`
(§3 data model); the constant contract addresses are kept inside the
`Prims` bloom predicates and do not appear here. -/
structure SystemConfig where
  batch_sender : Bytes
  l1_fee_overhead : Nat
  l1_fee_scalar : Nat
deriving DecidableEq, Repr

/-- Modelled from the spec: `config::ChainConfig` restricted to the fields
the code under `src/` reads (its embedded `SystemConfig`); the remaining
per-chain constants are consumed only by the modelled stages. -/
structure ChainConfig where
  system_config : SystemConfig
deriving DecidableEq, Repr

/-- `derivation::Epoch`. -/
structure Epoch where
  number : Nat
  hash : Bytes
  timestamp : Nat
  base_fee_per_gas : Nat
  deposits : List OpTx
deriving DecidableEq, Repr

/-- `derivation::BlockInfo` (the safe head). -/
structure BlockInfo where
  hash : Bytes
  timestamp : Nat
deriving DecidableEq, Repr

/-- Modelled from the spec: `derivation::State` — the current L1 position,
the safe head, the current epoch and the queue of not-yet-adopted epochs
(§4.7 state; epochs are enqueued by `push_epoch` and adopted by
`do_next_epoch`). -/
structure State where
  current_l1_block_number : Nat
  current_l1_block_hash : Bytes
  safe_head : BlockInfo
  epoch : Epoch
  next_epochs : List Epoch
deriving DecidableEq, Repr

/-- A decoded batch (the fields of `Batch::essence` that
`lib/src/optimism/mod.rs` reads). -/
structure Batch where
  parent_hash : Bytes
  epoch_num : Nat
  epoch_hash : Bytes
  timestamp : Nat
  transactions : List Bytes
deriving DecidableEq, Repr

/-- A transaction signature (zero for deposit transactions). -/
structure TxSignature where
  v : Nat
  r : Nat
  s : Nat
deriving DecidableEq, Repr

/-- `TxEssenceOptimismDeposited`: the essence of an L2 deposited (type 0x7E)
transaction. -/
structure TxEssenceOptimismDeposited where
  source_hash : Bytes
  from_addr : Bytes
  to_addr : Option Bytes
  mint : Nat
  value : Nat
  gas_limit : Nat
  is_system_tx : Bool
  data : Bytes
deriving DecidableEq, Repr

/-- `Transaction<OptimismTxEssence>` restricted to the deposited variant,
the only one constructed by the code under `src/`. -/
structure TxOptimism where
  essence : TxEssenceOptimismDeposited
  signature : TxSignature
deriving DecidableEq, Repr

/-- The fatal error kinds surfaced by the embedded code (`bail!`, failed
`assert!`/`unwrap`, and errors propagated from the modelled components). -/
inductive DeriveErr where
  | missingBlock
  | assertFail
  | decodeFail
  | ethHeadHashMismatch
  | invalidOpTxData
  | invalidEthTxData
  | invalidEthReceipts
  | txRootMismatch
  | configUpdateFail
  | depositExtractFail
  | batchProcessFail
  | epochQueueEmpty
  | pushEpochFail
  | outOfFuel
deriving DecidableEq, Repr

/-- Modelled from the spec: the primitive and component operations that
`lib/src/optimism/mod.rs` calls but whose implementations live outside the
given sources — keccak, the MPT root over an insertion list (§2 item 1,
`insert`/`root` contract), header hashing, `usize::to_rlp` trie keys, the
ABI codec for `setL1BlockValues`, the optimism transaction encoder, the
bloom filters (`deposits::can_contain`, `system_config::can_contain`),
the system-config tracker (§4.3), the deposit extractor (§4.2) and the
default chain configuration. -/
structure Prims where
  keccak : Bytes → Bytes
  mptRoot : List (Bytes × Bytes) → Bytes
  headerHash : Header → Bytes
  natRlp : Nat → Bytes
  decodeSetL1BlockValues : Bytes → Option SetL1BlockValuesCall
  abiEncodeSetL1BlockValues : SetL1BlockValuesCall → Bytes
  opDepositedTxRlp : TxOptimism → Bytes
  depositCanContain : Bytes → Bool
  configCanContain : Bytes → Bool
  updateSystemConfig : SystemConfig → BlockInputEth → Except DeriveErr SystemConfig
  extractDeposits : ChainConfig → BlockInputEth → Except DeriveErr (List OpTx)
  optimismChainConfig : ChainConfig

/-- Modelled from the spec: the batcher-transaction source, channel bank and
batch queue (`batches::Batches` minus its `config`/`state` fields, §4.4–4.6)
as an abstract deterministic stage over an internal state `σ`: `init` is
`Batches::new`, `next` is the batch iterator, `process` feeds an L1 block's
batcher transactions into the channel bank. -/
structure Stage (σ : Type) where
  init : ChainConfig → State → σ
  next : ChainConfig → State → σ → Option (Batch × σ)
  process : ChainConfig → State → BlockInputEth → σ → Except DeriveErr σ

/-- `MemDb`: the in-memory witness database, with `HashMap`s modelled as
association lists keyed by block number. -/
structure MemDb where
  full_op_block : List (Nat × BlockInputOp)
  op_block_header : List (Nat × Header)
  full_eth_block : List (Nat × BlockInputEth)
  eth_block_header : List (Nat × Header)
deriving DecidableEq, Repr

/-- `DeriveInput` over `MemDb`. -/
structure DeriveInput where
  db : MemDb
  op_head_block_no : Nat
  op_derive_block_count : Nat
deriving DecidableEq, Repr

/-- `DeriveOutput`. -/
structure DeriveOutput where
  eth_tail : Nat × Bytes
  op_head : Nat × Bytes
  derived_op_blocks : List (Nat × Bytes)
deriving DecidableEq, Repr

/-- `DeriveMachine`: `derive_input` is flattened into the `db` /
`op_head_block_no` / `op_derive_block_count` fields, and `op_batches` into
its `config` / `state` / `batches` components. -/
structure DeriveMachine (σ : Type) where
  db : MemDb
  op_head_block_no : Nat
  op_derive_block_count : Nat
  op_head_block_hash : Bytes
  op_block_no : Nat
  op_block_seq_no : Nat
  config : ChainConfig
  state : State
  batches : σ
  eth_block_no : Nat

/-- The transaction-trie root over an ordered transaction list: entry `i`
is inserted with key `i.to_rlp()` and value the raw transaction bytes. -/
def txTrieRoot (p : Prims) (txs : List Bytes) : Bytes :=
  p.mptRoot ((txs.enum).map fun q => (p.natRlp q.1, q.2))

/-- `MemDb::get_full_op_block`: single-use removal, block-number assertion
and transaction-trie validation. -/
def MemDb.get_full_op_block (p : Prims) (db : MemDb) (block_no : Nat) :
    Except DeriveErr (BlockInputOp × MemDb) :=
  match alistRemove block_no db.full_op_block with
  | none => .error .missingBlock
  | some (op_block, rest) =>
    if op_block.block_header.number = block_no then
      if txTrieRoot p (op_block.transactions.map (fun tx => tx.rlp))
          = op_block.block_header.transactions_root then
        .ok (op_block, { db with full_op_block := rest })
      else .error .invalidOpTxData
    else .error .assertFail

/-- `MemDb::get_op_block_header`: single-use removal and block-number
assertion. -/
def MemDb.get_op_block_header (db : MemDb) (block_no : Nat) :
    Except DeriveErr (Header × MemDb) :=
  match alistRemove block_no db.op_block_header with
  | none => .error .missingBlock
  | some (hdr, rest) =>
    if hdr.number = block_no then .ok (hdr, { db with op_block_header := rest })
    else .error .assertFail

/-- `MemDb::get_full_eth_block`: single-use removal, block-number assertion,
transaction-trie validation, and either receipt-trie validation (receipts
present) or the bloom proof that no deposit/config logs can occur (receipts
absent). -/
def MemDb.get_full_eth_block (p : Prims) (db : MemDb) (block_no : Nat) :
    Except DeriveErr (BlockInputEth × MemDb) :=
  match alistRemove block_no db.full_eth_block with
  | none => .error .missingBlock
  | some (eth_block, rest) =>
    if eth_block.block_header.number = block_no then
      if txTrieRoot p (eth_block.transactions.map (fun tx => tx.rlp))
          = eth_block.block_header.transactions_root then
        match eth_block.receipts with
        | some rs =>
          if txTrieRoot p (rs.map (fun r => r.rlp))
              = eth_block.block_header.receipts_root then
            .ok (eth_block, { db with full_eth_block := rest })
          else .error .invalidEthReceipts
        | none =>
          if p.depositCanContain eth_block.block_header.logs_bloom
              ∨ p.configCanContain eth_block.block_header.logs_bloom then
            .error .assertFail
          else .ok (eth_block, { db with full_eth_block := rest })
      else .error .invalidEthTxData
    else .error .assertFail

/-- `MemDb::get_eth_block_header`: single-use removal and block-number
assertion. -/
def MemDb.get_eth_block_header (db : MemDb) (block_no : Nat) :
    Except DeriveErr (Header × MemDb) :=
  match alistRemove block_no db.eth_block_header with
  | none => .error .missingBlock
  | some (hdr, rest) =>
    if hdr.number = block_no then .ok (hdr, { db with eth_block_header := rest })
    else .error .assertFail

/-- Modelled from the spec: `State::do_next_epoch` adopts the next queued
epoch (§4.7 step 2, "adopt the new epoch"); failing when none is queued. -/
def State.do_next_epoch (st : State) : Except DeriveErr State :=
  match st.next_epochs with
  | [] => .error .epochQueueEmpty
  | e :: rest => .ok { st with epoch := e, next_epochs := rest }

/-- Modelled from the spec: `State::push_epoch` enqueues an epoch, enforcing
strictly increasing epoch numbers (§3 invariant "Epochs pushed in strictly
increasing number"). -/
def State.push_epoch (st : State) (e : Epoch) : Except DeriveErr State :=
  match st.next_epochs.getLast? with
  | none => .ok { st with next_epochs := [e] }
  | some last =>
    if last.number < e.number then .ok { st with next_epochs := st.next_epochs ++ [e] }
    else .error .pushEpochFail

/-- The deposited-transaction sender `0xDeadDeaDDeaDDeaDDEaDDeadDEAddEADdead0001`. -/
def DEPOSITED_FROM_ADDRESS : Bytes :=
  [0xde, 0xad, 0xde, 0xad, 0xde, 0xad, 0xde, 0xad, 0xde, 0xad,
   0xde, 0xad, 0xde, 0xad, 0xde, 0xad, 0xde, 0xad, 0x00, 0x01]

/-- The L1-attributes predeploy `0x4200000000000000000000000000000000000015`. -/
def L1_INFO_TO_ADDRESS : Bytes :=
  [0x42, 0x00, 0x00, 0x00, 0x00, 0x00, 0x00, 0x00, 0x00, 0x00,
   0x00, 0x00, 0x00, 0x00, 0x00, 0x00, 0x00, 0x00, 0x00, 0x15]

/-- `U256::to_be_bytes_vec`: the 32-byte big-endian representation of a
number. -/
def beBytes32 (n : Nat) : Bytes :=
  List.replicate (32 - (beBytes n).length) 0 ++ beBytes n

/-- `DeriveMachine::derive_system_transaction`: the synthesized L1-attributes
deposited transaction for the current batch. -/
def DeriveMachine.derive_system_transaction {σ : Type} (p : Prims)
    (m : DeriveMachine σ) (op_batch : Batch) : TxOptimism :=
  let batcher_hash := List.replicate 12 0 ++ m.config.system_config.batch_sender
  let set_l1_block_values : SetL1BlockValuesCall := {
    number := m.state.epoch.number
    timestamp := m.state.epoch.timestamp
    basefee := m.state.epoch.base_fee_per_gas
    hash := m.state.epoch.hash
    sequence_number := m.op_block_seq_no
    batcher_hash := batcher_hash
    l1_fee_overhead := m.config.system_config.l1_fee_overhead
    l1_fee_scalar := m.config.system_config.l1_fee_scalar }
  let source_hash_sequencing :=
    p.keccak (op_batch.epoch_hash ++ beBytes32 m.op_block_seq_no)
  let source_hash :=
    p.keccak (List.replicate 31 0 ++ [1] ++ source_hash_sequencing)
  { essence := {
      source_hash := source_hash
      from_addr := DEPOSITED_FROM_ADDRESS
      to_addr := some L1_INFO_TO_ADDRESS
      mint := 0
      value := 0
      gas_limit := 1000000
      is_system_tx := false
      data := p.abiEncodeSetL1BlockValues set_l1_block_values }
    signature := { v := 0, r := 0, s := 0 } }

/-- The sequence-number / deposits step of `DeriveMachine::derive`
(lines 313–330): on an epoch transition (`epoch_num = current + 1`) reset
the sequence number to zero, adopt the next epoch and return its deposits'
RLP encodings; otherwise increment the sequence number with no pending
deposits. -/
def DeriveMachine.update_seq_no_and_deposits {σ : Type}
    (m : DeriveMachine σ) (op_batch : Batch) :
    Except DeriveErr (DeriveMachine σ × List Bytes) :=
  if op_batch.epoch_num = m.state.epoch.number + 1 then
    match m.state.do_next_epoch with
    | .error e => .error e
    | .ok st =>
      .ok ({ m with op_block_seq_no := 0, state := st },
           st.epoch.deposits.map (fun tx => tx.rlp))
  else
    .ok ({ m with op_block_seq_no := m.op_block_seq_no + 1 }, [])

/-- The expected L2 transaction list (lines 350–353): the system
transaction's RLP, then the pending deposits' RLPs, then the batch's raw
transactions, in order. -/
def DeriveMachine.derived_tx_list {σ : Type} (p : Prims) (m : DeriveMachine σ)
    (op_batch : Batch) (deposits : List Bytes) : List Bytes :=
  p.opDepositedTxRlp (DeriveMachine.derive_system_transaction p m op_batch)
    :: (deposits ++ op_batch.transactions)

/-- The body of `DeriveMachine::derive`'s inner loop (lines 299–386): advance
the L2 block number, update the sequence number and pending deposits, take
the next L2 header witness, assert parent linkage, check the
transaction-trie root, advance the safe head and emit the derived pair. -/
def DeriveMachine.process_batch {σ : Type} (p : Prims) (m0 : DeriveMachine σ)
    (op_batch : Batch) :
    Except DeriveErr (DeriveMachine σ × (Nat × Bytes)) :=
  let m1 : DeriveMachine σ := { m0 with op_block_no := m0.op_block_no + 1 }
  match DeriveMachine.update_seq_no_and_deposits m1 op_batch with
  | .error e => .error e
  | .ok (m, deposits) =>
    match MemDb.get_op_block_header m.db m.op_block_no with
    | .error e => .error e
    | .ok (new_op_head, db2) =>
      if new_op_head.parent_hash ≠ m.state.safe_head.hash then .error .assertFail
      else if txTrieRoot p (DeriveMachine.derived_tx_list p m op_batch deposits)
          ≠ new_op_head.transactions_root then .error .txRootMismatch
      else
        let new_op_head_hash := p.headerHash new_op_head
        .ok ({ m with
                db := db2
                state := { m.state with
                  safe_head := { hash := new_op_head_hash,
                                 timestamp := new_op_head.timestamp } } },
             (new_op_head.number, new_op_head_hash))

/-- `DeriveMachine::process_next_eth_block`: take the next full L1 block,
check parent linkage when advancing, update the system config from receipts,
enqueue the epoch with its extracted deposits, feed the batcher transactions
to the channel bank and advance the L1 cursor. -/
def DeriveMachine.process_next_eth_block {σ : Type} (p : Prims) (bq : Stage σ)
    (m : DeriveMachine σ) : Except DeriveErr (DeriveMachine σ) :=
  match MemDb.get_full_eth_block p m.db m.eth_block_no with
  | .error e => .error e
  | .ok (eth_block, db2) =>
    let eth_block_hash := p.headerHash eth_block.block_header
    if m.state.current_l1_block_number < m.eth_block_no
        ∧ eth_block.block_header.parent_hash ≠ m.state.current_l1_block_hash then
      .error .assertFail
    else
      match (if eth_block.receipts.isSome then
               p.updateSystemConfig m.config.system_config eth_block
             else .ok m.config.system_config) with
      | .error e => .error e
      | .ok sc =>
        let cfg : ChainConfig := { m.config with system_config := sc }
        match p.extractDeposits cfg eth_block with
        | .error e => .error e
        | .ok deps =>
          match State.push_epoch m.state
              { number := m.eth_block_no
                hash := eth_block_hash
                timestamp := eth_block.block_header.timestamp
                base_fee_per_gas := eth_block.block_header.base_fee_per_gas
                deposits := deps } with
          | .error e => .error e
          | .ok st =>
            match bq.process cfg st eth_block m.batches with
            | .error e => .error e
            | .ok b =>
              .ok { m with
                db := db2
                config := cfg
                state := { st with
                  current_l1_block_number := m.eth_block_no
                  current_l1_block_hash := eth_block_hash }
                batches := b
                eth_block_no := m.eth_block_no + 1 }

/-- The inner `while let Some(op_batch) = self.op_batches.next()` loop of
`DeriveMachine::derive`, with explicit fuel (the Rust loop has no static
bound since the batch stage is abstract here). -/
def DeriveMachine.batch_loop {σ : Type} (p : Prims) (bq : Stage σ) (target : Nat) :
    Nat → DeriveMachine σ → List (Nat × Bytes) →
    Except DeriveErr (DeriveMachine σ × List (Nat × Bytes))
  | 0, _, _ => .error .outOfFuel
  | fuel + 1, m, derived =>
    match bq.next m.config m.state m.batches with
    | none => .ok (m, derived)
    | some (op_batch, s) =>
      match DeriveMachine.process_batch p { m with batches := s } op_batch with
      | .error e => .error e
      | .ok (m2, entry) =>
        let derived2 := derived ++ [entry]
        if m2.op_block_no = target then .ok (m2, derived2)
        else DeriveMachine.batch_loop p bq target fuel m2 derived2

/-- The outer `while self.op_block_no < target_block_no` loop of
`DeriveMachine::derive`, with explicit fuel. -/
def DeriveMachine.derive_loop {σ : Type} (p : Prims) (bq : Stage σ) (target : Nat) :
    Nat → DeriveMachine σ → List (Nat × Bytes) →
    Except DeriveErr (DeriveMachine σ × List (Nat × Bytes))
  | 0, _, _ => .error .outOfFuel
  | fuel + 1, m, derived =>
    if m.op_block_no < target then
      match DeriveMachine.process_next_eth_block p bq m with
      | .error e => .error e
      | .ok m2 =>
        match DeriveMachine.batch_loop p bq target (fuel + 1) m2 derived with
        | .error e => .error e
        | .ok (m3, derived3) => DeriveMachine.derive_loop p bq target fuel m3 derived3
    else .ok (m, derived)

/-- `DeriveMachine::derive`. -/
def DeriveMachine.derive {σ : Type} (p : Prims) (bq : Stage σ) (fuel : Nat)
    (m : DeriveMachine σ) : Except DeriveErr DeriveOutput :=
  let target := m.op_head_block_no + m.op_derive_block_count
  match DeriveMachine.derive_loop p bq target fuel m [] with
  | .error e => .error e
  | .ok (m2, derived) =>
    .ok { eth_tail := (m2.state.current_l1_block_number,
                       m2.state.current_l1_block_hash)
          op_head := (m2.op_head_block_no, m2.op_head_block_hash)
          derived_op_blocks := derived }

/-- `DeriveMachine::new`: bootstrap from the L2 head block's first
transaction (a `setL1BlockValues` call), verifying the claimed L1 head hash
against the L1 header witness. -/
def DeriveMachine.new {σ : Type} (p : Prims) (bq : Stage σ)
    (input : DeriveInput) : Except DeriveErr (DeriveMachine σ) :=
  let op_block_no := input.op_head_block_no
  match MemDb.get_full_op_block p input.db op_block_no with
  | .error e => .error e
  | .ok (op_head, db1) =>
    let op_head_block_hash := p.headerHash op_head.block_header
    match op_head.transactions.head? with
    | none => .error .assertFail
    | some tx0 =>
      match p.decodeSetL1BlockValues tx0.data with
      | none => .error .decodeFail
      | some set_l1_block_values =>
        let op_block_seq_no := set_l1_block_values.sequence_number
        let eth_block_no := set_l1_block_values.number
        match MemDb.get_eth_block_header db1 eth_block_no with
        | .error e => .error e
        | .ok (eth_head, db2) =>
          let eth_head_hash := p.headerHash eth_head
          if eth_head_hash ≠ set_l1_block_values.hash then .error .ethHeadHashMismatch
          else
            let cfg0 := p.optimismChainConfig
            let cfg : ChainConfig := { cfg0 with system_config :=
              { cfg0.system_config with
                batch_sender := set_l1_block_values.batcher_hash.drop 12
                l1_fee_overhead := set_l1_block_values.l1_fee_overhead
                l1_fee_scalar := set_l1_block_values.l1_fee_scalar } }
            let st : State := {
              current_l1_block_number := eth_block_no
              current_l1_block_hash := eth_head_hash
              safe_head := { hash := op_head_block_hash,
                             timestamp := op_head.block_header.timestamp }
              epoch := {
                number := eth_block_no
                hash := eth_head_hash
                timestamp := eth_head.timestamp
                base_fee_per_gas := eth_head.base_fee_per_gas
                deposits := [] }
              next_epochs := [] }
            .ok { db := db2
                  op_head_block_no := input.op_head_block_no
                  op_derive_block_count := input.op_derive_block_count
                  op_head_block_hash := op_head_block_hash
                  op_block_no := op_block_no
                  op_block_seq_no := op_block_seq_no
                  config := cfg
                  state := st
                  batches := bq.init cfg st
                  eth_block_no := eth_block_no }

/-- The whole pipeline as run by the guest: `DeriveMachine::new` followed by
`DeriveMachine::derive`. -/
def runDerivation {σ : Type} (p : Prims) (bq : Stage σ) (fuel : Nat)
    (input : DeriveInput) : Except DeriveErr DeriveOutput :=
  match DeriveMachine.new p bq input with
  | .error e => .error e
  | .ok m => DeriveMachine.derive p bq fuel m

end Optimism

namespace Optimism

theorem get_full_op_block_ok {p : Prims} {db : MemDb} {n : Nat}
    {blk : BlockInputOp} {db' : MemDb}
    (h : MemDb.get_full_op_block p db n = .ok (blk, db')) :
    alistRemove n db.full_op_block = some (blk, db'.full_op_block) ∧
    blk.block_header.number = n ∧
    txTrieRoot p (blk.transactions.map (fun tx => tx.rlp))
      = blk.block_header.transactions_root ∧
    db'.op_block_header = db.op_block_header ∧
    db'.full_eth_block = db.full_eth_block ∧
    db'.eth_block_header = db.eth_block_header := by
  unfold MemDb.get_full_op_block at h
  split at h
  · simp at h
  next op_block rest hrem =>
    split at h
    · split at h
      · simp only [Except.ok.injEq, Prod.mk.injEq] at h
        obtain ⟨hb, hdb⟩ := h
        subst hb
        subst hdb
        simp_all
      · simp at h
    · simp at h

theorem get_op_block_header_ok {db : MemDb} {n : Nat}
    {hdr : Header} {db' : MemDb}
    (h : MemDb.get_op_block_header db n = .ok (hdr, db')) :
    alistRemove n db.op_block_header = some (hdr, db'.op_block_header) ∧
    hdr.number = n ∧
    db'.full_op_block = db.full_op_block ∧
    db'.full_eth_block = db.full_eth_block ∧
    db'.eth_block_header = db.eth_block_header := by
  unfold MemDb.get_op_block_header at h
  split at h
  · simp at h
  next hdr2 rest hrem =>
    split at h
    · simp only [Except.ok.injEq, Prod.mk.injEq] at h
      obtain ⟨hb, hdb⟩ := h
      subst hb
      subst hdb
      simp_all
    · simp at h

theorem get_full_eth_block_ok {p : Prims} {db : MemDb} {n : Nat}
    {blk : BlockInputEth} {db' : MemDb}
    (h : MemDb.get_full_eth_block p db n = .ok (blk, db')) :
    alistRemove n db.full_eth_block = some (blk, db'.full_eth_block) ∧
    blk.block_header.number = n ∧
    txTrieRoot p (blk.transactions.map (fun tx => tx.rlp))
      = blk.block_header.transactions_root ∧
    (∀ rs, blk.receipts = some rs →
      txTrieRoot p (rs.map (fun r => r.rlp)) = blk.block_header.receipts_root) ∧
    (blk.receipts = none →
      p.depositCanContain blk.block_header.logs_bloom = false ∧
      p.configCanContain blk.block_header.logs_bloom = false) ∧
    db'.full_op_block = db.full_op_block ∧
    db'.op_block_header = db.op_block_header ∧
    db'.eth_block_header = db.eth_block_header := by
  unfold MemDb.get_full_eth_block at h
  split at h
  · simp at h
  next eth_block rest hrem =>
    split at h
    · split at h
      · split at h
        next rs hrs =>
          split at h
          · simp only [Except.ok.injEq, Prod.mk.injEq] at h
            obtain ⟨hb, hdb⟩ := h
            subst hb
            subst hdb
            simp_all
          · simp at h
        next hrs =>
          split at h
          · simp at h
          next hcan =>
            simp only [Except.ok.injEq, Prod.mk.injEq] at h
            obtain ⟨hb, hdb⟩ := h
            subst hb
            subst hdb
            push_neg at hcan
            simp_all [Bool.not_eq_true]
      · simp at h
    · simp at h

theorem get_eth_block_header_ok {db : MemDb} {n : Nat}
    {hdr : Header} {db' : MemDb}
    (h : MemDb.get_eth_block_header db n = .ok (hdr, db')) :
    alistRemove n db.eth_block_header = some (hdr, db'.eth_block_header) ∧
    hdr.number = n ∧
    db'.full_op_block = db.full_op_block ∧
    db'.op_block_header = db.op_block_header ∧
    db'.full_eth_block = db.full_eth_block := by
  unfold MemDb.get_eth_block_header at h
  split at h
  · simp at h
  next hdr2 rest hrem =>
    split at h
    · simp only [Except.ok.injEq, Prod.mk.injEq] at h
      obtain ⟨hb, hdb⟩ := h
      subst hb
      subst hdb
      simp_all
    · simp at h

end Optimism

namespace Optimism

/-! ### Concrete instances used to exercise the theorems -/

/-- A concrete decoded `setL1BlockValues` call: L1 head number 5 with hash
`[5]`. -/
def wCall : SetL1BlockValuesCall :=
  { number := 5, timestamp := 0, basefee := 0, hash := [5], sequence_number := 0,
    batcher_hash := List.replicate 32 7, l1_fee_overhead := 0, l1_fee_scalar := 0 }

/-- A concrete primitive environment: the header hash of a header is its
block number as a single byte and every MPT root is `[0]`. -/
def wPrims : Prims where
  keccak := fun l => List.replicate 31 0 ++ [l.length % 256]
  mptRoot := fun _ => [0]
  headerHash := fun h => [h.number]
  natRlp := fun n => [n]
  decodeSetL1BlockValues := fun _ => some wCall
  abiEncodeSetL1BlockValues := fun _ => []
  opDepositedTxRlp := fun _ => []
  depositCanContain := fun _ => false
  configCanContain := fun _ => false
  updateSystemConfig := fun sc _ => .ok sc
  extractDeposits := fun _ _ => .ok []
  optimismChainConfig :=
    { system_config :=
      { batch_sender := List.replicate 20 0, l1_fee_overhead := 0, l1_fee_scalar := 0 } }

/-- A concrete batch for L2 block 11: same epoch as the L2 head (number 5). -/
def wBatch : Batch :=
  { parent_hash := [10], epoch_num := 5, epoch_hash := [5], timestamp := 0,
    transactions := [] }

/-- A concrete batch stage over state `Nat`: yields `wBatch` once. -/
def wStage : Stage Nat where
  init := fun _ _ => 0
  next := fun _ _ s => if s = 0 then some (wBatch, 1) else none
  process := fun _ _ _ s => .ok s

/-- The L2 head header (block 10). -/
def wOpHeadHdr : Header :=
  { number := 10, parent_hash := [], timestamp := 0, base_fee_per_gas := 0,
    transactions_root := [0], receipts_root := [], logs_bloom := [] }

/-- The L2 head block, whose single transaction carries the
`setL1BlockValues` calldata. -/
def wOpHead : BlockInputOp :=
  { block_header := wOpHeadHdr, transactions := [{ rlp := [], data := [] }] }

/-- The L1 head header (block 5). -/
def wEthHdr5 : Header :=
  { number := 5, parent_hash := [], timestamp := 0, base_fee_per_gas := 0,
    transactions_root := [0], receipts_root := [0], logs_bloom := [] }

/-- The full L1 block 5, no transactions and no receipts. -/
def wEthBlk5 : BlockInputEth :=
  { block_header := wEthHdr5, transactions := [], receipts := none }

/-- The L2 header witness for the derived block 11. -/
def wHdr11 : Header :=
  { number := 11, parent_hash := [10], timestamp := 0, base_fee_per_gas := 0,
    transactions_root := [0], receipts_root := [], logs_bloom := [] }

/-- A concrete witness database. -/
def wDb : MemDb :=
  { full_op_block := [(10, wOpHead)]
    op_block_header := [(11, wHdr11)]
    full_eth_block := [(5, wEthBlk5)]
    eth_block_header := [(5, wEthHdr5)] }

/-- A concrete derive input: head 10, one block to derive. -/
def wInput : DeriveInput :=
  { db := wDb, op_head_block_no := 10, op_derive_block_count := 1 }

/-- The machine produced by `DeriveMachine.new` on `wInput`. -/
def wM0 : DeriveMachine Nat :=
  { db := { full_op_block := []
            op_block_header := [(11, wHdr11)]
            full_eth_block := [(5, wEthBlk5)]
            eth_block_header := [] }
    op_head_block_no := 10
    op_derive_block_count := 1
    op_head_block_hash := [10]
    op_block_no := 10
    op_block_seq_no := 0
    config := { system_config :=
      { batch_sender := List.replicate 20 7, l1_fee_overhead := 0, l1_fee_scalar := 0 } }
    state := { current_l1_block_number := 5
               current_l1_block_hash := [5]
               safe_head := { hash := [10], timestamp := 0 }
               epoch := { number := 5, hash := [5], timestamp := 0,
                          base_fee_per_gas := 0, deposits := [] }
               next_epochs := [] }
    batches := 0
    eth_block_no := 5 }

/-- The output of the derivation on `wInput`. -/
def wOut : DeriveOutput :=
  { eth_tail := (5, [5]), op_head := (10, [10]), derived_op_blocks := [(11, [11])] }

/-! ### C6: witness-database take operations -/

/-- C6: every witness-DB take removes the requested entry (single-use) and
validates Merkle commitments before returning: `get_full_op_block` and
`get_full_eth_block` only succeed when the transaction-trie root (keys
`RLP(index)`) matches the header's `transactions_root`;
`get_full_eth_block` with receipts present requires the receipt-trie root
to match `receipts_root`, and with receipts absent requires the logs bloom
to rule out deposit-contract and system-config-contract logs. -/
theorem memdb_take_operations_spec (p : Prims) (db : MemDb) (n : Nat) :
    (∀ blk db', MemDb.get_full_op_block p db n = .ok (blk, db') →
      blk.block_header.number = n ∧
      txTrieRoot p (blk.transactions.map (fun tx => tx.rlp))
        = blk.block_header.transactions_root ∧
      alookup n db.full_op_block = some blk ∧
      ((db.full_op_block.map Prod.fst).Nodup → alookup n db'.full_op_block = none)) ∧
    (∀ blk rest, alistRemove n db.full_op_block = some (blk, rest) →
      blk.block_header.number = n →
      txTrieRoot p (blk.transactions.map (fun tx => tx.rlp))
        ≠ blk.block_header.transactions_root →
      MemDb.get_full_op_block p db n = .error .invalidOpTxData) ∧
    (∀ blk db', MemDb.get_full_eth_block p db n = .ok (blk, db') →
      blk.block_header.number = n ∧
      txTrieRoot p (blk.transactions.map (fun tx => tx.rlp))
        = blk.block_header.transactions_root ∧
      (∀ rs, blk.receipts = some rs →
        txTrieRoot p (rs.map (fun r => r.rlp)) = blk.block_header.receipts_root) ∧
      (blk.receipts = none →
        p.depositCanContain blk.block_header.logs_bloom = false ∧
        p.configCanContain blk.block_header.logs_bloom = false) ∧
      alookup n db.full_eth_block = some blk ∧
      ((db.full_eth_block.map Prod.fst).Nodup → alookup n db'.full_eth_block = none)) ∧
    (∀ blk rest rs, alistRemove n db.full_eth_block = some (blk, rest) →
      blk.block_header.number = n →
      txTrieRoot p (blk.transactions.map (fun tx => tx.rlp))
        = blk.block_header.transactions_root →
      blk.receipts = some rs →
      txTrieRoot p (rs.map (fun r => r.rlp)) ≠ blk.block_header.receipts_root →
      MemDb.get_full_eth_block p db n = .error .invalidEthReceipts) ∧
    (∀ blk rest, alistRemove n db.full_eth_block = some (blk, rest) →
      blk.block_header.number = n →
      txTrieRoot p (blk.transactions.map (fun tx => tx.rlp))
        = blk.block_header.transactions_root →
      blk.receipts = none →
      (p.depositCanContain blk.block_header.logs_bloom = true ∨
       p.configCanContain blk.block_header.logs_bloom = true) →
      MemDb.get_full_eth_block p db n = .error .assertFail) ∧
    (∀ hdr db', MemDb.get_op_block_header db n = .ok (hdr, db') →
      hdr.number = n ∧ alookup n db.op_block_header = some hdr ∧
      ((db.op_block_header.map Prod.fst).Nodup → alookup n db'.op_block_header = none)) ∧
    (∀ hdr db', MemDb.get_eth_block_header db n = .ok (hdr, db') →
      hdr.number = n ∧ alookup n db.eth_block_header = some hdr ∧
      ((db.eth_block_header.map Prod.fst).Nodup →
        alookup n db'.eth_block_header = none)) := by
  refine ⟨?_, ?_, ?_, ?_, ?_, ?_, ?_⟩
  · intro blk db' h
    obtain ⟨hrem, hnum, hroot, _⟩ := get_full_op_block_ok h
    exact ⟨hnum, hroot, alistRemove_lookup hrem,
      fun hnd => alistRemove_nodup_lookup hrem hnd⟩
  · intro blk rest hrem hnum hroot
    unfold MemDb.get_full_op_block
    rw [hrem]
    simp [hnum, hroot]
  · intro blk db' h
    obtain ⟨hrem, hnum, hroot, hrcpt, hbloom, _⟩ := get_full_eth_block_ok h
    exact ⟨hnum, hroot, hrcpt, hbloom, alistRemove_lookup hrem,
      fun hnd => alistRemove_nodup_lookup hrem hnd⟩
  · intro blk rest rs hrem hnum htx hrs hroot
    unfold MemDb.get_full_eth_block
    rw [hrem]
    simp [hnum, htx, hrs, hroot]
  · intro blk rest hrem hnum htx hrs hcan
    unfold MemDb.get_full_eth_block
    rw [hrem]
    simp [hnum, htx, hrs, hcan]
  · intro hdr db' h
    obtain ⟨hrem, hnum, _⟩ := get_op_block_header_ok h
    exact ⟨hnum, alistRemove_lookup hrem,
      fun hnd => alistRemove_nodup_lookup hrem hnd⟩
  · intro hdr db' h
    obtain ⟨hrem, hnum, _⟩ := get_eth_block_header_ok h
    exact ⟨hnum, alistRemove_lookup hrem,
      fun hnd => alistRemove_nodup_lookup hrem hnd⟩

/-- Exercises `memdb_take_operations_spec` on the concrete database `wDb`:
taking full L2 block 10 succeeds and removes the entry. -/
theorem memdb_take_operations_spec_witness :
    MemDb.get_full_op_block wPrims wDb 10
      = .ok (wOpHead, { wDb with full_op_block := [] }) ∧
    (wDb.full_op_block.map Prod.fst).Nodup ∧
    alookup 10 ({ wDb with full_op_block := ([] : List (Nat × BlockInputOp)) }).full_op_block
      = none := by
  refine ⟨by rfl, by decide, ?_⟩
  exact ((memdb_take_operations_spec wPrims wDb 10).1 wOpHead
    { wDb with full_op_block := [] } (by rfl)).2.2.2 (by decide)

end Optimism

namespace Optimism

/-- The chain configuration installed by `DeriveMachine::new` from the
decoded `setL1BlockValues` call. -/
def bootstrapConfig (p : Prims) (call : SetL1BlockValuesCall) : ChainConfig :=
  { p.optimismChainConfig with system_config :=
    { p.optimismChainConfig.system_config with
      batch_sender := call.batcher_hash.drop 12
      l1_fee_overhead := call.l1_fee_overhead
      l1_fee_scalar := call.l1_fee_scalar } }

/-- The derivation state installed by `DeriveMachine::new`. -/
def bootstrapState (p : Prims) (op_head : BlockInputOp) (eth_head : Header)
    (call : SetL1BlockValuesCall) : State :=
  { current_l1_block_number := call.number
    current_l1_block_hash := p.headerHash eth_head
    safe_head := { hash := p.headerHash op_head.block_header,
                   timestamp := op_head.block_header.timestamp }
    epoch := { number := call.number
               hash := p.headerHash eth_head
               timestamp := eth_head.timestamp
               base_fee_per_gas := eth_head.base_fee_per_gas
               deposits := [] }
    next_epochs := [] }

theorem new_ok_machine {σ : Type} {p : Prims} (bq : Stage σ) {input : DeriveInput}
    {op_head : BlockInputOp} {db1 : MemDb} {tx0 : OpTx}
    {call : SetL1BlockValuesCall} {eth_head : Header} {db2 : MemDb}
    (h1 : MemDb.get_full_op_block p input.db input.op_head_block_no = .ok (op_head, db1))
    (h2 : op_head.transactions.head? = some tx0)
    (h3 : p.decodeSetL1BlockValues tx0.data = some call)
    (h4 : MemDb.get_eth_block_header db1 call.number = .ok (eth_head, db2))
    (h5 : p.headerHash eth_head = call.hash) :
    DeriveMachine.new p bq input =
      .ok { db := db2
            op_head_block_no := input.op_head_block_no
            op_derive_block_count := input.op_derive_block_count
            op_head_block_hash := p.headerHash op_head.block_header
            op_block_no := input.op_head_block_no
            op_block_seq_no := call.sequence_number
            config := bootstrapConfig p call
            state := bootstrapState p op_head eth_head call
            batches := bq.init (bootstrapConfig p call)
              (bootstrapState p op_head eth_head call)
            eth_block_no := call.number } := by
  simp only [DeriveMachine.new]
  rw [h1]
  dsimp only
  rw [h2]
  dsimp only
  rw [h3]
  dsimp only
  rw [h4]
  dsimp only
  rw [h5]
  simp only [ne_eq, not_true_eq_false, if_false, ite_false]
  simp [bootstrapConfig, bootstrapState, h5]

/-- C4: `DeriveMachine::new` reads the L2 head block, decodes its first
transaction's calldata as a `setL1BlockValues` call and, given that those
steps succeed, fails (before any block is derived) exactly when the call's
`hash` differs from the hash of the L1 header witness at the call's
`number`; on success it initializes `batch_sender` from the low 20 bytes of
`batcher_hash`, the fee overhead, the fee scalar and the starting sequence
number from the call's arguments. -/
theorem derive_machine_new_spec {σ : Type} (p : Prims) (bq : Stage σ)
    (input : DeriveInput) (op_head : BlockInputOp) (db1 : MemDb) (tx0 : OpTx)
    (call : SetL1BlockValuesCall) (eth_head : Header) (db2 : MemDb)
    (h1 : MemDb.get_full_op_block p input.db input.op_head_block_no = .ok (op_head, db1))
    (h2 : op_head.transactions.head? = some tx0)
    (h3 : p.decodeSetL1BlockValues tx0.data = some call)
    (h4 : MemDb.get_eth_block_header db1 call.number = .ok (eth_head, db2)) :
    (DeriveMachine.new p bq input = (.error .ethHeadHashMismatch : Except DeriveErr (DeriveMachine σ))
      ↔ p.headerHash eth_head ≠ call.hash) ∧
    (∀ m0 : DeriveMachine σ, DeriveMachine.new p bq input = .ok m0 →
      m0.config.system_config.batch_sender = call.batcher_hash.drop 12 ∧
      m0.config.system_config.l1_fee_overhead = call.l1_fee_overhead ∧
      m0.config.system_config.l1_fee_scalar = call.l1_fee_scalar ∧
      m0.op_block_seq_no = call.sequence_number ∧
      m0.eth_block_no = call.number ∧
      m0.state.current_l1_block_number = call.number ∧
      m0.state.current_l1_block_hash = call.hash) := by
  by_cases h5 : p.headerHash eth_head = call.hash
  · have hok := new_ok_machine bq h1 h2 h3 h4 h5
    constructor
    · rw [hok]
      constructor
      · intro h
        simp at h
      · intro h
        exact absurd h5 h
    · intro m0 hm0
      rw [hok] at hm0
      simp only [Except.ok.injEq] at hm0
      subst hm0
      simp [bootstrapConfig, bootstrapState, h5]
  · have herr : DeriveMachine.new p bq input
        = (.error .ethHeadHashMismatch : Except DeriveErr (DeriveMachine σ)) := by
      simp only [DeriveMachine.new]
      rw [h1]
      dsimp only
      rw [h2]
      dsimp only
      rw [h3]
      dsimp only
      rw [h4]
      dsimp only
      simp [h5]
    constructor
    · rw [herr]
      simp [h5]
    · intro m0 hm0
      rw [herr] at hm0
      simp at hm0

/-- Exercises `derive_machine_new_spec` on the concrete input `wInput`. -/
theorem derive_machine_new_spec_witness :
    wM0.config.system_config.batch_sender = wCall.batcher_hash.drop 12 ∧
    wM0.op_block_seq_no = wCall.sequence_number ∧
    wM0.state.current_l1_block_hash = wCall.hash := by
  have h := (derive_machine_new_spec wPrims wStage wInput wOpHead
      { wDb with full_op_block := [] } { rlp := [], data := [] } wCall wEthHdr5 wM0.db
      (by rfl) (by rfl) (by rfl) (by rfl)).2 wM0 (by rfl)
  exact ⟨h.1, h.2.2.2.1, h.2.2.2.2.2.2⟩

end Optimism

namespace Optimism

/-- C3: the synthesized L1-attributes system transaction is a deposited
transaction from `0xDead…dead0001` to `0x42…0015` with `mint = 0`,
`value = 0`, `gas_limit = 1_000_000`, `is_system_tx = false`, zero
signature, calldata the ABI encoding of `setL1BlockValues` over the current
epoch's number, timestamp, base fee and hash, the current sequence number,
the zero-padded batch sender, the fee overhead and the fee scalar, and
`source_hash = keccak(0x00^31 || 0x01 || keccak(epoch_hash ||
be32(op_block_seq_no)))`.  The code hashes the batch's `epoch_hash`, which
equals the current epoch's hash whenever the batch queue's epoch validation
holds (hypothesis `h`). -/
theorem derive_system_transaction_spec {σ : Type} (p : Prims)
    (m : DeriveMachine σ) (op_batch : Batch)
    (h : op_batch.epoch_hash = m.state.epoch.hash) :
    DeriveMachine.derive_system_transaction p m op_batch =
      { essence := {
          source_hash := p.keccak (List.replicate 31 0 ++ [1] ++
            p.keccak (m.state.epoch.hash ++ beBytes32 m.op_block_seq_no))
          from_addr := DEPOSITED_FROM_ADDRESS
          to_addr := some L1_INFO_TO_ADDRESS
          mint := 0
          value := 0
          gas_limit := 1000000
          is_system_tx := false
          data := p.abiEncodeSetL1BlockValues {
            number := m.state.epoch.number
            timestamp := m.state.epoch.timestamp
            basefee := m.state.epoch.base_fee_per_gas
            hash := m.state.epoch.hash
            sequence_number := m.op_block_seq_no
            batcher_hash := List.replicate 12 0 ++ m.config.system_config.batch_sender
            l1_fee_overhead := m.config.system_config.l1_fee_overhead
            l1_fee_scalar := m.config.system_config.l1_fee_scalar } }
        signature := { v := 0, r := 0, s := 0 } } := by
  unfold DeriveMachine.derive_system_transaction
  rw [h]

/-- Exercises `derive_system_transaction_spec` on the concrete machine
`wM0` and batch `wBatch`. -/
theorem derive_system_transaction_spec_witness :
    wBatch.epoch_hash = wM0.state.epoch.hash ∧
    (DeriveMachine.derive_system_transaction wPrims wM0 wBatch).essence.source_hash
      = wPrims.keccak (List.replicate 31 0 ++ [1] ++
          wPrims.keccak (wM0.state.epoch.hash ++ beBytes32 wM0.op_block_seq_no)) := by
  refine ⟨rfl, ?_⟩
  rw [derive_system_transaction_spec wPrims wM0 wBatch rfl]

/-- C5: for each consumed batch, the sequence number is reset to 0 exactly
when `batch.epoch_num = current_epoch.number + 1` — in which case the next
queued epoch is adopted and its deposits become pending — and is
incremented by 1 otherwise, with no pending deposits. -/
theorem update_seq_no_and_deposits_spec {σ : Type} (m : DeriveMachine σ)
    (op_batch : Batch) :
    (op_batch.epoch_num = m.state.epoch.number + 1 →
      ∀ (m' : DeriveMachine σ) deps,
        DeriveMachine.update_seq_no_and_deposits m op_batch = .ok (m', deps) →
        m'.op_block_seq_no = 0 ∧
        ∃ e rest, m.state.next_epochs = e :: rest ∧ m'.state.epoch = e ∧
          deps = e.deposits.map (fun tx => tx.rlp)) ∧
    (op_batch.epoch_num ≠ m.state.epoch.number + 1 →
      ∀ (m' : DeriveMachine σ) deps,
        DeriveMachine.update_seq_no_and_deposits m op_batch = .ok (m', deps) →
        m'.op_block_seq_no = m.op_block_seq_no + 1 ∧ deps = [] ∧
        m'.state = m.state) := by
  constructor
  · intro heq m' deps h
    unfold DeriveMachine.update_seq_no_and_deposits at h
    simp only [heq, if_true] at h
    unfold State.do_next_epoch at h
    cases hq : m.state.next_epochs with
    | nil => rw [hq] at h; simp at h
    | cons e rest =>
      rw [hq] at h
      simp only [Except.ok.injEq, Prod.mk.injEq] at h
      obtain ⟨hm, hdeps⟩ := h
      subst hm
      exact ⟨rfl, e, rest, rfl, rfl, hdeps.symm⟩
  · intro hne m' deps h
    unfold DeriveMachine.update_seq_no_and_deposits at h
    simp only [hne, if_false, ite_false, Except.ok.injEq, Prod.mk.injEq] at h
    obtain ⟨hm, hdeps⟩ := h
    subst hm
    exact ⟨rfl, hdeps.symm, rfl⟩

/-- Exercises `update_seq_no_and_deposits_spec` on `wM0` and `wBatch`
(same epoch, so the sequence number increments). -/
theorem update_seq_no_and_deposits_spec_witness :
    wBatch.epoch_num ≠ wM0.state.epoch.number + 1 ∧
    ({ wM0 with op_block_seq_no := 1 } : DeriveMachine Nat).op_block_seq_no
      = wM0.op_block_seq_no + 1 := by
  refine ⟨by decide, ?_⟩
  exact ((update_seq_no_and_deposits_spec wM0 wBatch).2 (by decide)
    { wM0 with op_block_seq_no := 1 } [] (by rfl)).1

/-- C2: for every consumed batch, the expected L2 transaction list is
`[system transaction RLP] ++ [deposit RLPs] ++ batch.transactions`, an MPT
is built over it with key `RLP(index)` and value the raw transaction bytes,
and — once the sequence-number step, the L2 header witness fetch and the
parent-hash assertion have gone through — the step aborts with a fatal
error exactly when that MPT root differs from the header witness's
`transactions_root`. -/
theorem process_batch_tx_root_spec {σ : Type} (p : Prims)
    (m0 : DeriveMachine σ) (op_batch : Batch) (m1 : DeriveMachine σ)
    (deposits : List Bytes) (hdr : Header) (db2 : MemDb)
    (hseq : DeriveMachine.update_seq_no_and_deposits
      { m0 with op_block_no := m0.op_block_no + 1 } op_batch = .ok (m1, deposits))
    (hhdr : MemDb.get_op_block_header m1.db m1.op_block_no = .ok (hdr, db2))
    (hpar : hdr.parent_hash = m1.state.safe_head.hash) :
    DeriveMachine.derived_tx_list p m1 op_batch deposits
      = p.opDepositedTxRlp (DeriveMachine.derive_system_transaction p m1 op_batch)
        :: (deposits ++ op_batch.transactions) ∧
    txTrieRoot p (DeriveMachine.derived_tx_list p m1 op_batch deposits)
      = p.mptRoot (((DeriveMachine.derived_tx_list p m1 op_batch deposits).enum).map
          (fun q => (p.natRlp q.1, q.2))) ∧
    ((∃ r, DeriveMachine.process_batch p m0 op_batch = .ok r)
      ↔ txTrieRoot p (DeriveMachine.derived_tx_list p m1 op_batch deposits)
          = hdr.transactions_root) ∧
    (txTrieRoot p (DeriveMachine.derived_tx_list p m1 op_batch deposits)
        ≠ hdr.transactions_root →
      DeriveMachine.process_batch p m0 op_batch = .error .txRootMismatch) := by
  have hstep : ∀ x, DeriveMachine.process_batch p m0 op_batch = x ↔
      (if txTrieRoot p (DeriveMachine.derived_tx_list p m1 op_batch deposits)
          ≠ hdr.transactions_root then (.error .txRootMismatch : Except DeriveErr _)
       else .ok ({ m1 with
              db := db2
              state := { m1.state with
                safe_head := { hash := p.headerHash hdr,
                               timestamp := hdr.timestamp } } },
            (hdr.number, p.headerHash hdr))) = x := by
    intro x
    constructor
    · intro hx
      rw [← hx]
      simp only [DeriveMachine.process_batch]
      rw [hseq]
      dsimp only
      rw [hhdr]
      dsimp only
      rw [hpar]
      simp
    · intro hx
      rw [← hx]
      simp only [DeriveMachine.process_batch]
      rw [hseq]
      dsimp only
      rw [hhdr]
      dsimp only
      rw [hpar]
      simp
  refine ⟨rfl, rfl, ?_, ?_⟩
  · by_cases hroot : txTrieRoot p (DeriveMachine.derived_tx_list p m1 op_batch deposits)
        = hdr.transactions_root
    · constructor
      · intro _
        exact hroot
      · intro _
        refine ⟨({ m1 with
            db := db2
            state := { m1.state with
              safe_head := { hash := p.headerHash hdr,
                             timestamp := hdr.timestamp } } },
          (hdr.number, p.headerHash hdr)), ?_⟩
        rw [hstep]
        simp [hroot]
    · constructor
      · intro hex
        obtain ⟨r, hr⟩ := hex
        rw [hstep] at hr
        simp [hroot] at hr
      · intro h
        exact absurd h hroot
  · intro hroot
    rw [hstep]
    simp [hroot]

/-- Exercises `process_batch_tx_root_spec` on the concrete machine `wM0`
and batch `wBatch`: the roots match and the step succeeds. -/
theorem process_batch_tx_root_spec_witness :
    DeriveMachine.update_seq_no_and_deposits
      { wM0 with op_block_no := wM0.op_block_no + 1 } wBatch
      = .ok ({ wM0 with op_block_no := 11, op_block_seq_no := 1 }, []) ∧
    (∃ r, DeriveMachine.process_batch wPrims wM0 wBatch = .ok r) := by
  refine ⟨by rfl, ?_⟩
  exact ((process_batch_tx_root_spec wPrims wM0 wBatch
      { wM0 with op_block_no := 11, op_block_seq_no := 1 } [] wHdr11
      { wM0.db with op_block_header := [] }
      (by rfl) (by rfl) (by rfl)).2.2.1).mpr (by rfl)

/-- C7: L1 blocks are consumed in strictly increasing block number — a
successful `process_next_eth_block` consumes the full L1 block numbered
`eth_block_no` and advances `eth_block_no` by exactly 1 — and when the
derivation has advanced past the first L1 block
(`current_l1_block_number < eth_block_no`), the newly taken block's
`parent_hash` must equal the hash of the previously processed L1 block,
or the step aborts. -/
theorem process_next_eth_block_spec {σ : Type} (p : Prims) (bq : Stage σ)
    (m : DeriveMachine σ) :
    (∀ m', DeriveMachine.process_next_eth_block p bq m = .ok m' →
      m'.eth_block_no = m.eth_block_no + 1 ∧
      ∃ blk db2, MemDb.get_full_eth_block p m.db m.eth_block_no = .ok (blk, db2) ∧
        blk.block_header.number = m.eth_block_no ∧
        m'.state.current_l1_block_number = m.eth_block_no ∧
        m'.state.current_l1_block_hash = p.headerHash blk.block_header ∧
        (m.state.current_l1_block_number < m.eth_block_no →
          blk.block_header.parent_hash = m.state.current_l1_block_hash)) ∧
    (∀ blk db2, MemDb.get_full_eth_block p m.db m.eth_block_no = .ok (blk, db2) →
      m.state.current_l1_block_number < m.eth_block_no →
      blk.block_header.parent_hash ≠ m.state.current_l1_block_hash →
      DeriveMachine.process_next_eth_block p bq m = .error .assertFail) := by
  constructor
  · intro m' h
    unfold DeriveMachine.process_next_eth_block at h
    split at h
    · simp at h
    next eth_block db2 hget =>
      split at h
      · simp at h
      next hassert =>
        push_neg at hassert
        split at h
        · simp at h
        next sc hsc =>
          dsimp only at h
          split at h
          · simp at h
          next deps hdeps =>
            split at h
            · simp at h
            next st hpush =>
              split at h
              · simp at h
              next b hb =>
                simp only [Except.ok.injEq] at h
                subst h
                obtain ⟨hrem, hnum, _⟩ := get_full_eth_block_ok hget
                exact ⟨rfl, eth_block, db2, hget, hnum, rfl, rfl, hassert⟩
  · intro blk db2 hget hadv hpar
    unfold DeriveMachine.process_next_eth_block
    rw [hget]
    simp [hadv, hpar]

/-- Exercises `process_next_eth_block_spec` on the concrete machine `wM0`:
processing L1 block 5 succeeds and advances `eth_block_no` to 6. -/
theorem process_next_eth_block_spec_witness :
    DeriveMachine.process_next_eth_block wPrims wStage wM0
      = .ok { wM0 with
          db := { wM0.db with full_eth_block := [] }
          state := { wM0.state with
            next_epochs := [{ number := 5, hash := [5], timestamp := 0,
                              base_fee_per_gas := 0, deposits := [] }] }
          eth_block_no := 6 } ∧
    ({ wM0 with
        db := { wM0.db with full_eth_block := [] }
        state := { wM0.state with
          next_epochs := [{ number := 5, hash := [5], timestamp := 0,
                            base_fee_per_gas := 0, deposits := [] }] }
        eth_block_no := 6 } : DeriveMachine Nat).eth_block_no
      = wM0.eth_block_no + 1 := by
  refine ⟨by rfl, ?_⟩
  exact ((process_next_eth_block_spec wPrims wStage wM0).1 _ (by rfl)).1

end Optimism

namespace Optimism

theorem update_seq_no_and_deposits_effects {σ : Type} {m m' : DeriveMachine σ}
    {op_batch : Batch} {deps : List Bytes}
    (h : DeriveMachine.update_seq_no_and_deposits m op_batch = .ok (m', deps)) :
    m'.db = m.db ∧ m'.op_block_no = m.op_block_no ∧
    m'.eth_block_no = m.eth_block_no ∧
    m'.op_head_block_no = m.op_head_block_no ∧
    m'.op_derive_block_count = m.op_derive_block_count ∧
    m'.op_head_block_hash = m.op_head_block_hash ∧
    m'.config = m.config ∧
    m'.state.current_l1_block_number = m.state.current_l1_block_number ∧
    m'.state.current_l1_block_hash = m.state.current_l1_block_hash ∧
    m'.state.safe_head = m.state.safe_head := by
  unfold DeriveMachine.update_seq_no_and_deposits at h
  split at h
  · unfold State.do_next_epoch at h
    split at h
    · simp at h
    next st hst =>
      simp only [Except.ok.injEq, Prod.mk.injEq] at h
      obtain ⟨hm, _⟩ := h
      subst hm
      split at hst
      · simp at hst
      · simp only [Except.ok.injEq] at hst
        subst hst
        simp
  · simp only [Except.ok.injEq, Prod.mk.injEq] at h
    obtain ⟨hm, _⟩ := h
    subst hm
    simp

theorem process_batch_effects {σ : Type} {p : Prims} {m0 m' : DeriveMachine σ}
    {op_batch : Batch} {entry : Nat × Bytes}
    (h : DeriveMachine.process_batch p m0 op_batch = .ok (m', entry)) :
    m'.op_block_no = m0.op_block_no + 1 ∧
    m'.op_head_block_no = m0.op_head_block_no ∧
    m'.op_derive_block_count = m0.op_derive_block_count ∧
    m'.op_head_block_hash = m0.op_head_block_hash ∧
    m'.eth_block_no = m0.eth_block_no ∧
    m'.state.current_l1_block_number = m0.state.current_l1_block_number ∧
    m'.state.current_l1_block_hash = m0.state.current_l1_block_hash ∧
    m'.db.full_eth_block = m0.db.full_eth_block ∧
    (∀ k, k ≠ m0.op_block_no + 1 →
      alookup k m'.db.op_block_header = alookup k m0.db.op_block_header) ∧
    ∃ hdr, alookup (m0.op_block_no + 1) m0.db.op_block_header = some hdr ∧
      hdr.number = m0.op_block_no + 1 ∧
      entry = (m0.op_block_no + 1, p.headerHash hdr) := by
  simp only [DeriveMachine.process_batch] at h
  split at h
  · simp at h
  next m1 deposits hseq =>
    obtain ⟨hdb, hopno, hethno, hheadno, hcount, hheadhash, hcfg, hl1no, hl1hash, hsafe⟩ :=
      update_seq_no_and_deposits_effects hseq
    simp only at hdb hopno hethno hheadno hcount hheadhash hl1no hl1hash
    split at h
    · simp at h
    next new_op_head db2 hhdr =>
      obtain ⟨hrem, hnum, hdb2a, hdb2b, hdb2c⟩ := get_op_block_header_ok hhdr
      split at h
      · simp at h
      split at h
      · simp at h
      simp only [Except.ok.injEq, Prod.mk.injEq] at h
      obtain ⟨hm', hentry⟩ := h
      subst hm'
      rw [hopno] at hrem hnum
      rw [hdb] at hrem
      refine ⟨by simp [hopno], by simp [hheadno], by simp [hcount],
        by simp [hheadhash], by simp [hethno], by simp [hl1no], by simp [hl1hash],
        ?_, ?_, ?_⟩
      · show db2.full_eth_block = m0.db.full_eth_block
        rw [hdb2b, hdb]
      · intro k hk
        show alookup k db2.op_block_header = alookup k m0.db.op_block_header
        have := alistRemove_lookup_ne hrem k hk
        rw [this]
      · refine ⟨new_op_head, alistRemove_lookup hrem, hnum, ?_⟩
        rw [← hentry, hnum]

theorem process_next_eth_block_effects {σ : Type} {p : Prims} {bq : Stage σ}
    {m m' : DeriveMachine σ}
    (h : DeriveMachine.process_next_eth_block p bq m = .ok m') :
    m'.eth_block_no = m.eth_block_no + 1 ∧
    m'.op_block_no = m.op_block_no ∧
    m'.op_head_block_no = m.op_head_block_no ∧
    m'.op_derive_block_count = m.op_derive_block_count ∧
    m'.op_head_block_hash = m.op_head_block_hash ∧
    m'.db.op_block_header = m.db.op_block_header ∧
    (∀ k, k ≠ m.eth_block_no →
      alookup k m'.db.full_eth_block = alookup k m.db.full_eth_block) ∧
    ∃ blk, alookup m.eth_block_no m.db.full_eth_block = some blk ∧
      blk.block_header.number = m.eth_block_no ∧
      m'.state.current_l1_block_number = m.eth_block_no ∧
      m'.state.current_l1_block_hash = p.headerHash blk.block_header := by
  unfold DeriveMachine.process_next_eth_block at h
  split at h
  · simp at h
  next eth_block db2 hget =>
    split at h
    · simp at h
    next hassert =>
      split at h
      · simp at h
      next sc hsc =>
        dsimp only at h
        split at h
        · simp at h
        next deps hdeps =>
          split at h
          · simp at h
          next st hpush =>
            split at h
            · simp at h
            next b hb =>
              simp only [Except.ok.injEq] at h
              subst h
              obtain ⟨hrem, hnum, _, _, _, _, hoph, _⟩ := get_full_eth_block_ok hget
              refine ⟨rfl, rfl, rfl, rfl, rfl, hoph, ?_, ?_⟩
              · intro k hk
                exact alistRemove_lookup_ne hrem k hk
              · exact ⟨eth_block, alistRemove_lookup hrem, hnum, rfl, rfl⟩

end Optimism

namespace Optimism

/-- The main-loop invariant of `DeriveMachine::derive`, relative to the
initial database `db0`, head block number `H`, head hash `HH` and target
count `C`: the derived list counts the L2 blocks consumed so far, its
entries carry consecutive numbers paired with the witness header hashes
from `db0`, and the not-yet-consumed witness entries are still those of
`db0`. -/
def LoopInv {σ : Type} (p : Prims) (db0 : MemDb) (H : Nat) (HH : Bytes) (C : Nat)
    (m : DeriveMachine σ) (derived : List (Nat × Bytes)) : Prop :=
  m.op_head_block_no = H ∧
  m.op_derive_block_count = C ∧
  m.op_head_block_hash = HH ∧
  m.op_block_no = H + derived.length ∧
  (∀ i (hi : i < derived.length),
    (derived.get ⟨i, hi⟩).1 = H + i + 1 ∧
    ∃ hdr, alookup (H + i + 1) db0.op_block_header = some hdr ∧
      (derived.get ⟨i, hi⟩).2 = p.headerHash hdr) ∧
  (∀ k, m.op_block_no < k →
    alookup k m.db.op_block_header = alookup k db0.op_block_header) ∧
  (∀ k, m.eth_block_no ≤ k →
    alookup k m.db.full_eth_block = alookup k db0.full_eth_block)

/-- After at least one L1 block has been processed, the machine's current L1
position names a full L1 block of `db0` whose header hashes to the current
L1 hash, and the L1 cursor sits one past it. -/
def EthTailProcessed {σ : Type} (p : Prims) (db0 : MemDb)
    (m : DeriveMachine σ) : Prop :=
  ∃ blk, alookup m.state.current_l1_block_number db0.full_eth_block = some blk ∧
    blk.block_header.number = m.state.current_l1_block_number ∧
    m.state.current_l1_block_hash = p.headerHash blk.block_header ∧
    m.eth_block_no = m.state.current_l1_block_number + 1

theorem loopInv_process_batch {σ : Type} {p : Prims} {db0 : MemDb}
    {H : Nat} {HH : Bytes} {C : Nat} {m m' : DeriveMachine σ} {op_batch : Batch}
    {entry : Nat × Bytes} {derived : List (Nat × Bytes)}
    (hinv : LoopInv p db0 H HH C m derived)
    (h : DeriveMachine.process_batch p m op_batch = .ok (m', entry)) :
    LoopInv p db0 H HH C m' (derived ++ [entry]) := by
  obtain ⟨ih1, ih2, ih3, ih4, ih5, ih6, ih7⟩ := hinv
  obtain ⟨e1, e2, e3, e4, e5, e6, e7, e8, e9, hdr, hlk, hnum, hentry⟩ :=
    process_batch_effects h
  refine ⟨e2.trans ih1, e3.trans ih2, e4.trans ih3, ?_, ?_, ?_, ?_⟩
  · rw [e1, ih4]
    simp [Nat.add_assoc]
  · intro i hi
    rw [List.length_append, List.length_singleton] at hi
    by_cases hlt : i < derived.length
    · have hget : (derived ++ [entry]).get ⟨i, by simp; omega⟩
          = derived.get ⟨i, hlt⟩ := by
        simp only [List.get_eq_getElem]
        exact List.getElem_append_left hlt
      rw [hget]
      exact ih5 i hlt
    · have hieq : i = derived.length := by omega
      subst hieq
      have hget : (derived ++ [entry]).get ⟨derived.length, by simp⟩ = entry := by
        simp only [List.get_eq_getElem]
        exact List.getElem_concat_length derived entry _ rfl _
      rw [hget]
      have hx : m.op_block_no + 1 = H + derived.length + 1 := by rw [ih4]
      constructor
      · rw [hentry]
        simp [hx]
      · refine ⟨hdr, ?_, by rw [hentry]⟩
        rw [← hx]
        rw [← ih6 (m.op_block_no + 1) (by omega)]
        exact hlk
  · intro k hk
    rw [e1] at hk
    have hk2 : k ≠ m.op_block_no + 1 := by omega
    rw [e9 k hk2]
    exact ih6 k (by omega)
  · intro k hk
    rw [e5] at hk
    rw [e8]
    exact ih7 k hk

theorem ethTail_process_batch {σ : Type} {p : Prims} {db0 : MemDb}
    {m m' : DeriveMachine σ} {op_batch : Batch} {entry : Nat × Bytes}
    (heth : EthTailProcessed p db0 m)
    (h : DeriveMachine.process_batch p m op_batch = .ok (m', entry)) :
    EthTailProcessed p db0 m' := by
  obtain ⟨e1, e2, e3, e4, e5, e6, e7, _⟩ := process_batch_effects h
  obtain ⟨blk, hlk, hnum, hhash, hcur⟩ := heth
  exact ⟨blk, by rw [e6]; exact hlk, by rw [e6]; exact hnum,
    by rw [e7]; exact hhash, by rw [e5, e6]; exact hcur⟩

theorem loopInv_process_next_eth_block {σ : Type} {p : Prims} {bq : Stage σ}
    {db0 : MemDb} {H : Nat} {HH : Bytes} {C : Nat} {m m' : DeriveMachine σ}
    {derived : List (Nat × Bytes)}
    (hinv : LoopInv p db0 H HH C m derived)
    (h : DeriveMachine.process_next_eth_block p bq m = .ok m') :
    LoopInv p db0 H HH C m' derived ∧ EthTailProcessed p db0 m' := by
  obtain ⟨ih1, ih2, ih3, ih4, ih5, ih6, ih7⟩ := hinv
  obtain ⟨e1, e2, e3, e4, e5, e6, e7, blk, hlk, hnum, hcurno, hcurhash⟩ :=
    process_next_eth_block_effects h
  constructor
  · refine ⟨e3.trans ih1, e4.trans ih2, e5.trans ih3, by rw [e2, ih4], ih5, ?_, ?_⟩
    · intro k hk
      rw [e2] at hk
      rw [e6]
      exact ih6 k hk
    · intro k hk
      rw [e1] at hk
      rw [e7 k (by omega)]
      exact ih7 k (by omega)
  · refine ⟨blk, ?_, by rw [hcurno]; exact hnum, hcurhash, by rw [e1, hcurno]⟩
    rw [hcurno, ← ih7 m.eth_block_no (Nat.le_refl _)]
    exact hlk

theorem batch_loop_inv {σ : Type} {p : Prims} {bq : Stage σ} {db0 : MemDb}
    {H : Nat} {HH : Bytes} {C : Nat} {target : Nat} :
    ∀ (fuel : Nat) (m : DeriveMachine σ) (derived : List (Nat × Bytes))
      (m' : DeriveMachine σ) (derived' : List (Nat × Bytes)),
    DeriveMachine.batch_loop p bq target fuel m derived = .ok (m', derived') →
    LoopInv p db0 H HH C m derived →
    EthTailProcessed p db0 m →
    m.op_block_no < target →
    LoopInv p db0 H HH C m' derived' ∧ EthTailProcessed p db0 m' ∧
    m'.op_block_no ≤ target := by
  intro fuel
  induction fuel with
  | zero =>
    intro m derived m' derived' h
    simp [DeriveMachine.batch_loop] at h
  | succ fuel ih =>
    intro m derived m' derived' h hinv heth hlt
    unfold DeriveMachine.batch_loop at h
    cases hnext : bq.next m.config m.state m.batches with
    | none =>
      rw [hnext] at h
      simp only [Except.ok.injEq, Prod.mk.injEq] at h
      obtain ⟨hm, hd⟩ := h
      subst hm
      subst hd
      exact ⟨hinv, heth, Nat.le_of_lt hlt⟩
    | some pr =>
      obtain ⟨op_batch, s⟩ := pr
      rw [hnext] at h
      dsimp only at h
      cases hpb : DeriveMachine.process_batch p { m with batches := s } op_batch with
      | error e => rw [hpb] at h; simp at h
      | ok r =>
        obtain ⟨m2, entry⟩ := r
        rw [hpb] at h
        dsimp only at h
        have hinvb : LoopInv p db0 H HH C { m with batches := s } derived := hinv
        have hethb : EthTailProcessed p db0 ({ m with batches := s }) := heth
        have hinv2 : LoopInv p db0 H HH C m2 (derived ++ [entry]) :=
          loopInv_process_batch hinvb hpb
        have heth2 : EthTailProcessed p db0 m2 := ethTail_process_batch hethb hpb
        have hop2 : m2.op_block_no = m.op_block_no + 1 := (process_batch_effects hpb).1
        by_cases htar : m2.op_block_no = target
        · rw [if_pos htar] at h
          simp only [Except.ok.injEq, Prod.mk.injEq] at h
          obtain ⟨hm, hd⟩ := h
          subst hm
          subst hd
          exact ⟨hinv2, heth2, Nat.le_of_eq htar⟩
        · rw [if_neg htar] at h
          exact ih m2 (derived ++ [entry]) m' derived' h hinv2 heth2 (by omega)

theorem derive_loop_inv {σ : Type} {p : Prims} {bq : Stage σ} {db0 : MemDb}
    {H : Nat} {HH : Bytes} {C : Nat} {target : Nat} :
    ∀ (fuel : Nat) (m : DeriveMachine σ) (derived : List (Nat × Bytes))
      (m' : DeriveMachine σ) (derived' : List (Nat × Bytes)),
    DeriveMachine.derive_loop p bq target fuel m derived = .ok (m', derived') →
    LoopInv p db0 H HH C m derived →
    m.op_block_no ≤ target →
    LoopInv p db0 H HH C m' derived' ∧ m'.op_block_no = target ∧
    ((m' = m ∧ derived' = derived) ∨ EthTailProcessed p db0 m') := by
  intro fuel
  induction fuel with
  | zero =>
    intro m derived m' derived' h
    simp [DeriveMachine.derive_loop] at h
  | succ fuel ih =>
    intro m derived m' derived' h hinv hle
    unfold DeriveMachine.derive_loop at h
    by_cases hlt : m.op_block_no < target
    · rw [if_pos hlt] at h
      cases hpe : DeriveMachine.process_next_eth_block p bq m with
      | error e => rw [hpe] at h; simp at h
      | ok m2 =>
        rw [hpe] at h
        dsimp only at h
        obtain ⟨hinv2, heth2⟩ := loopInv_process_next_eth_block hinv hpe
        have hop2 : m2.op_block_no = m.op_block_no :=
          (process_next_eth_block_effects hpe).2.1
        cases hbl : DeriveMachine.batch_loop p bq target (fuel + 1) m2 derived with
        | error e => rw [hbl] at h; simp at h
        | ok r =>
          obtain ⟨m3, derived3⟩ := r
          rw [hbl] at h
          dsimp only at h
          obtain ⟨hinv3, heth3, hle3⟩ :=
            batch_loop_inv (fuel + 1) m2 derived m3 derived3 hbl hinv2 heth2
              (by omega)
          obtain ⟨hinv', htar', hdisj⟩ := ih m3 derived3 m' derived' h hinv3 hle3
          refine ⟨hinv', htar', Or.inr ?_⟩
          cases hdisj with
          | inl heq =>
            rw [heq.1]
            exact heth3
          | inr heth' => exact heth'
    · rw [if_neg hlt] at h
      simp only [Except.ok.injEq, Prod.mk.injEq] at h
      obtain ⟨hm, hd⟩ := h
      subst hm
      subst hd
      exact ⟨hinv, by omega, Or.inl ⟨rfl, rfl⟩⟩

end Optimism

namespace Optimism

theorem new_ok_inv {σ : Type} {p : Prims} {bq : Stage σ} {input : DeriveInput}
    {m0 : DeriveMachine σ}
    (h : DeriveMachine.new p bq input = .ok m0) :
    ∃ op_head db1 tx0 call eth_head db2,
      MemDb.get_full_op_block p input.db input.op_head_block_no
        = .ok (op_head, db1) ∧
      op_head.transactions.head? = some tx0 ∧
      p.decodeSetL1BlockValues tx0.data = some call ∧
      MemDb.get_eth_block_header db1 call.number = .ok (eth_head, db2) ∧
      p.headerHash eth_head = call.hash ∧
      m0 = { db := db2
             op_head_block_no := input.op_head_block_no
             op_derive_block_count := input.op_derive_block_count
             op_head_block_hash := p.headerHash op_head.block_header
             op_block_no := input.op_head_block_no
             op_block_seq_no := call.sequence_number
             config := bootstrapConfig p call
             state := bootstrapState p op_head eth_head call
             batches := bq.init (bootstrapConfig p call)
               (bootstrapState p op_head eth_head call)
             eth_block_no := call.number } := by
  simp only [DeriveMachine.new] at h
  split at h
  · simp at h
  next op_head db1 h1 =>
    split at h
    · simp at h
    next tx0 h2 =>
      split at h
      · simp at h
      next call h3 =>
        split at h
        · simp at h
        next eth_head db2 h4 =>
          split at h
          · simp at h
          next h5 =>
            push_neg at h5
            simp only [Except.ok.injEq] at h
            refine ⟨op_head, db1, tx0, call, eth_head, db2, h1, h2, h3, h4, h5, ?_⟩
            rw [← h]
            simp [bootstrapConfig, bootstrapState, h5]

/-- C1: whenever `DeriveMachine::new` followed by `derive` succeeds, the
output's `derived_op_blocks` has length exactly `op_derive_block_count`;
its `i`-th entry is `(op_head_block_no + i + 1, hash of the L2 header
witness at that number)`, so the entries are in strictly increasing
block-number order; `op_head` is `(op_head_block_no, hash of the L2 head
witness)`; and `eth_tail` is the number and hash of the last L1 block
processed (a full L1 witness block, whenever at least one block was
derived). -/
theorem derive_machine_derive_spec {σ : Type} (p : Prims) (bq : Stage σ)
    (input : DeriveInput) (m0 : DeriveMachine σ) (fuel : Nat) (out : DeriveOutput)
    (hnew : DeriveMachine.new p bq input = .ok m0)
    (hder : DeriveMachine.derive p bq fuel m0 = .ok out) :
    out.derived_op_blocks.length = input.op_derive_block_count ∧
    (∀ i (hi : i < out.derived_op_blocks.length),
      (out.derived_op_blocks.get ⟨i, hi⟩).1 = input.op_head_block_no + i + 1 ∧
      ∃ hdr, alookup (input.op_head_block_no + i + 1) input.db.op_block_header
          = some hdr ∧
        (out.derived_op_blocks.get ⟨i, hi⟩).2 = p.headerHash hdr) ∧
    (∀ i j (hi : i < out.derived_op_blocks.length)
        (hj : j < out.derived_op_blocks.length), i < j →
      (out.derived_op_blocks.get ⟨i, hi⟩).1 < (out.derived_op_blocks.get ⟨j, hj⟩).1) ∧
    (∃ op_head_blk db1,
      MemDb.get_full_op_block p input.db input.op_head_block_no
        = .ok (op_head_blk, db1) ∧
      out.op_head = (input.op_head_block_no, p.headerHash op_head_blk.block_header)) ∧
    (0 < input.op_derive_block_count →
      ∃ blk, alookup out.eth_tail.1 input.db.full_eth_block = some blk ∧
        blk.block_header.number = out.eth_tail.1 ∧
        out.eth_tail.2 = p.headerHash blk.block_header) := by
  obtain ⟨op_head, db1, tx0, call, eth_head, db2, h1, h2, h3, h4, h5, hm0⟩ :=
    new_ok_inv hnew
  obtain ⟨hrem1, _, _, hdb1a, hdb1b, _⟩ := get_full_op_block_ok h1
  obtain ⟨hrem2, _, hdb2a, hdb2b, hdb2c⟩ := get_eth_block_header_ok h4
  have hinv0 : LoopInv p input.db input.op_head_block_no
      (p.headerHash op_head.block_header) input.op_derive_block_count m0 [] := by
    subst hm0
    refine ⟨rfl, rfl, rfl, by simp, by simp, ?_, ?_⟩
    · intro k _
      show alookup k db2.op_block_header = _
      rw [hdb2b, hdb1a]
    · intro k _
      show alookup k db2.full_eth_block = _
      rw [hdb2c, hdb1b]
  have hH : m0.op_head_block_no = input.op_head_block_no := by rw [hm0]
  have hC : m0.op_derive_block_count = input.op_derive_block_count := by rw [hm0]
  have hOp : m0.op_block_no = input.op_head_block_no := by rw [hm0]
  simp only [DeriveMachine.derive] at hder
  cases hloop : DeriveMachine.derive_loop p bq
      (m0.op_head_block_no + m0.op_derive_block_count) fuel m0 [] with
  | error e => rw [hloop] at hder; simp at hder
  | ok r =>
    obtain ⟨m2, derived⟩ := r
    rw [hloop] at hder
    dsimp only at hder
    simp only [Except.ok.injEq] at hder
    obtain ⟨i1, i2, i3, i4, i5, i6, i7⟩ :
        LoopInv p input.db input.op_head_block_no
          (p.headerHash op_head.block_header) input.op_derive_block_count m2 derived :=
      (derive_loop_inv fuel m0 [] m2 derived hloop hinv0 (by omega)).1
    have htar : m2.op_block_no = m0.op_head_block_no + m0.op_derive_block_count :=
      (derive_loop_inv fuel m0 [] m2 derived hloop hinv0 (by omega)).2.1
    have hdisj := (derive_loop_inv fuel m0 [] m2 derived hloop hinv0 (by omega)).2.2
    have hlen : derived.length = input.op_derive_block_count := by omega
    subst hder
    refine ⟨hlen, i5, ?_, ?_, ?_⟩
    · intro i j hi hj hij
      have hi1 := (i5 i hi).1
      have hj1 := (i5 j hj).1
      show (derived.get ⟨i, hi⟩).1 < (derived.get ⟨j, hj⟩).1
      omega
    · exact ⟨op_head, db1, h1, by rw [i1, i3]⟩
    · intro hc
      cases hdisj with
      | inl hl =>
        exfalso
        have : derived = [] := hl.2
        rw [this] at hlen
        simp at hlen
        omega
      | inr heth =>
        obtain ⟨blk, hlk, hnum, hhash, _⟩ := heth
        exact ⟨blk, hlk, hnum, hhash⟩

/-- Exercises `derive_machine_derive_spec` on the concrete input `wInput`:
one block is derived and the output is `wOut`. -/
theorem derive_machine_derive_spec_witness :
    DeriveMachine.new wPrims wStage wInput = .ok wM0 ∧
    DeriveMachine.derive wPrims wStage 5 wM0 = .ok wOut ∧
    wOut.derived_op_blocks.length = wInput.op_derive_block_count := by
  refine ⟨by rfl, by rfl, ?_⟩
  exact (derive_machine_derive_spec wPrims wStage wInput wM0 5 wOut
    (by rfl) (by rfl)).1

/-- C10: if `op_derive_block_count = 0` and `DeriveMachine::new` succeeds,
`derive` returns without processing any L1 block: the loop leaves the
machine (hence the witness database) untouched, `derived_op_blocks` is
empty, and `eth_tail` is the number and hash of the L1 block identified by
the L2 head's `setL1BlockValues` call. -/
theorem derive_zero_count_spec {σ : Type} (p : Prims) (bq : Stage σ)
    (input : DeriveInput) (m0 : DeriveMachine σ) (fuel : Nat)
    (hnew : DeriveMachine.new p bq input = .ok m0)
    (hzero : input.op_derive_block_count = 0) (hfuel : 0 < fuel) :
    DeriveMachine.derive_loop p bq
      (m0.op_head_block_no + m0.op_derive_block_count) fuel m0 [] = .ok (m0, []) ∧
    DeriveMachine.derive p bq fuel m0 =
      .ok { eth_tail := (m0.state.current_l1_block_number,
                         m0.state.current_l1_block_hash)
            op_head := (input.op_head_block_no, m0.op_head_block_hash)
            derived_op_blocks := [] } ∧
    (∃ op_head_blk db1 tx0 call eth_head db2,
      MemDb.get_full_op_block p input.db input.op_head_block_no
        = .ok (op_head_blk, db1) ∧
      op_head_blk.transactions.head? = some tx0 ∧
      p.decodeSetL1BlockValues tx0.data = some call ∧
      MemDb.get_eth_block_header db1 call.number = .ok (eth_head, db2) ∧
      m0.state.current_l1_block_number = call.number ∧
      m0.state.current_l1_block_hash = p.headerHash eth_head ∧
      m0.op_head_block_hash = p.headerHash op_head_blk.block_header) := by
  obtain ⟨op_head, db1, tx0, call, eth_head, db2, h1, h2, h3, h4, h5, hm0⟩ :=
    new_ok_inv hnew
  have hC : m0.op_derive_block_count = 0 := by rw [hm0]; exact hzero
  have hOp : m0.op_block_no = m0.op_head_block_no := by rw [hm0]
  have hloop : DeriveMachine.derive_loop p bq
      (m0.op_head_block_no + m0.op_derive_block_count) fuel m0 [] = .ok (m0, []) := by
    cases fuel with
    | zero => omega
    | succ fuel =>
      unfold DeriveMachine.derive_loop
      rw [if_neg (by omega)]
  refine ⟨hloop, ?_, ?_⟩
  · simp only [DeriveMachine.derive]
    rw [hloop]
    dsimp only
    have : m0.op_head_block_no = input.op_head_block_no := by rw [hm0]
    rw [this]
  · exact ⟨op_head, db1, tx0, call, eth_head, db2, h1, h2, h3, h4,
      by rw [hm0]; rfl, by rw [hm0]; rfl, by rw [hm0]⟩

/-- Exercises `derive_zero_count_spec`: with a zero block count on the
concrete database, `derive` returns the bootstrap L1 position `(5, [5])`
and no derived blocks. -/
theorem derive_zero_count_spec_witness :
    DeriveMachine.new wPrims wStage
      { db := wDb, op_head_block_no := 10, op_derive_block_count := 0 }
      = .ok ({ wM0 with op_derive_block_count := 0 }) ∧
    DeriveMachine.derive wPrims wStage 3 ({ wM0 with op_derive_block_count := 0 })
      = .ok { eth_tail := (5, [5]), op_head := (10, [10]),
              derived_op_blocks := [] } := by
  refine ⟨by rfl, ?_⟩
  exact (derive_zero_count_spec wPrims wStage
    { db := wDb, op_head_block_no := 10, op_derive_block_count := 0 }
    ({ wM0 with op_derive_block_count := 0 }) 3 (by rfl) (by rfl) (by decide)).2.1

/-- C8: derivation is deterministic — running `DeriveMachine::new` followed
by `derive` on equal inputs yields equal results, identical outputs on
success and failures of the same kind otherwise.  The embedded pipeline is
a pure function of the input, so equal inputs give equal `Except` values. -/
theorem derivation_deterministic {σ : Type} (p : Prims) (bq : Stage σ)
    (fuel : Nat) (i1 i2 : DeriveInput) (h : i1 = i2) :
    runDerivation p bq fuel i1 = runDerivation p bq fuel i2 := by
  rw [h]

/-- Exercises `derivation_deterministic` on the concrete input `wInput`. -/
theorem derivation_deterministic_witness :
    wInput = wInput ∧
    runDerivation wPrims wStage 5 wInput = runDerivation wPrims wStage 5 wInput :=
  ⟨rfl, derivation_deterministic wPrims wStage 5 wInput wInput rfl⟩

end Optimism
